import Mathlib

/-!
Verification development for the juni-cli-proton session bridge and
agent-control protocol.  The definitions below are shallow embeddings of
the JavaScript source: `src/renderer/src/components/Terminal.jsx` (output
capture engine and key translation), `src/renderer/src/components/GeminiChat.jsx`
(agent loop) and `src/main.js` (session bridge / backend adapter).
-/

namespace Juni

/-! ### JavaScript string primitives

Embeddings of the JavaScript string operations the renderer uses:
the regex whitespace class, `trim`, `includes`, `indexOf` and
`split` on whitespace runs. -/

/-- Characters matched by the JavaScript regex whitespace class
(used by `split` on a whitespace-run pattern, and by `trim`). -/
def isJsWs (c : Char) : Bool :=
  c == ' ' || c == '\t' || c == '\n' || c == '\x0b' || c == '\x0c' || c == '\r' ||
  c == '\u00A0' || c == '\u1680' || ('\u2000' ≤ c && c ≤ '\u200A') ||
  c == '\u2028' || c == '\u2029' || c == '\u202F' || c == '\u205F' ||
  c == '\u3000' || c == '\uFEFF'

/-- JavaScript `String.prototype.trim` on a character list. -/
def jsTrimL (l : List Char) : List Char :=
  ((l.dropWhile isJsWs).reverse.dropWhile isJsWs).reverse

/-- JavaScript `String.prototype.trim`. -/
def jsTrim (s : String) : String := ⟨jsTrimL s.data⟩

/-- Does `p` occur at the head of the second list. -/
def startsWithL : List Char → List Char → Bool
  | [], _ => true
  | _ :: _, [] => false
  | p :: ps, c :: cs => p == c && startsWithL ps cs

/-- JavaScript `String.prototype.includes`: does `pat` occur anywhere. -/
def containsSubL (pat : List Char) : List Char → Bool
  | [] => pat.isEmpty
  | c :: cs => startsWithL pat (c :: cs) || containsSubL pat cs

/-- JavaScript `s.includes(pat)`. -/
def jsIncludes (s pat : String) : Bool := containsSubL pat.data s.data

/-- Index of the first character satisfying `p` (JavaScript `indexOf`). -/
def firstIdx (p : Char → Bool) : List Char → Option Nat
  | [] => none
  | c :: cs => if p c then some 0 else (firstIdx p cs).map (· + 1)

/-- Helper for `jsSplitWs`: walks the characters, emitting the pending token
at each whitespace run.  `inGap` records that the previous character was
whitespace (so further whitespace extends the same separator). -/
def splitWsAux : List Char → Bool → List Char → List (List Char)
  | [], _, acc => [acc.reverse]
  | c :: cs, inGap, acc =>
    if isJsWs c then
      if inGap then splitWsAux cs true acc
      else acc.reverse :: splitWsAux cs true []
    else splitWsAux cs false (c :: acc)

/-- JavaScript `keys.split` on a whitespace-run regex: tokens are the maximal
non-whitespace runs, with an empty token at either end when the string
starts or ends with whitespace (exactly as the JavaScript `split` yields). -/
def jsSplitWs (s : String) : List String :=
  (splitWsAux s.data false []).map (fun l => ⟨l⟩)

/-! ### The escape scrubber `stripAnsi` (Terminal.jsx lines 10-18)

The JavaScript source chains eight global regex replacements.  Each is
embedded as a matcher returning the length of the match at the head of the
list (`none` when there is no match there), and `applyPass` replays the
JavaScript global-replace loop: scan left to right, delete each match,
resume right after it. -/

/-- ASCII letter, the regex class `[a-zA-Z]`. -/
def isAsciiLetter (c : Char) : Bool :=
  ('a' ≤ c && c ≤ 'z') || ('A' ≤ c && c ≤ 'Z')

/-- The regex class `[0-9;]` of CSI parameter characters. -/
def isParamChar (c : Char) : Bool :=
  ('0' ≤ c && c ≤ '9') || c == ';'

/-- The regex class of CSI intermediate bytes, space through slash. -/
def isIntermediate (c : Char) : Bool := ' ' ≤ c && c ≤ '/'

/-- The regex class of CSI final bytes, `@` through `~`. -/
def isFinalByte (c : Char) : Bool := '@' ≤ c && c ≤ '~'

/-- Pass 1: ESC `[` with an optional private marker `? = > !`, parameter
characters, and a letter final byte. -/
def matchCsi (l : List Char) : Option Nat :=
  match l with
  | '\x1b' :: '[' :: rest =>
    let pr :=
      match rest with
      | c :: cs =>
        if c == '?' || c == '=' || c == '>' || c == '!' then (1, cs) else (0, rest)
      | [] => (0, ([] : List Char))
    let ps := pr.2.takeWhile isParamChar
    match pr.2.drop ps.length with
    | c :: _ => if isAsciiLetter c then some (2 + pr.1 + ps.length + 1) else none
    | [] => none
  | _ => none

/-- Pass 2: the single-byte CSI `\x9b`, parameter characters, a letter. -/
def matchCsi8 (l : List Char) : Option Nat :=
  match l with
  | c0 :: rest =>
    if c0 == '\x9b' then
      let ps := rest.takeWhile isParamChar
      match rest.drop ps.length with
      | c :: _ => if isAsciiLetter c then some (1 + ps.length + 1) else none
      | [] => none
    else none
  | [] => none

/-- Last index at which the two-character string terminator ESC `\` starts. -/
def lastEscBs : List Char → Option Nat
  | [] => none
  | c :: cs =>
    match lastEscBs cs with
    | some j => some (j + 1)
    | none =>
      match cs with
      | c2 :: _ => if c == '\x1b' && c2 == '\\' then some 0 else none
      | [] => none

/-- Pass 3 terminator search: the greedy regex body `[^\x07]*(?:\x07|\x1b\\)`
matches up to the first BEL when one exists, otherwise up to the last
ESC-backslash string terminator.  Returns the length of body plus terminator. -/
def oscEnd (rest : List Char) : Option Nat :=
  match firstIdx (fun c => c == '\x07') rest with
  | some i => some (i + 1)
  | none => (lastEscBs rest).map (fun j => j + 2)

/-- Pass 3: OSC sequences ESC `]` ... terminated by BEL or ESC `\`. -/
def matchOsc (l : List Char) : Option Nat :=
  match l with
  | '\x1b' :: ']' :: rest => (oscEnd rest).map (fun n => 2 + n)
  | _ => none

/-- Pass 4: charset selection ESC `(` or ESC `)` followed by `[A-Z0-9]`. -/
def matchCharset (l : List Char) : Option Nat :=
  match l with
  | '\x1b' :: c1 :: c2 :: _ =>
    if (c1 == '(' || c1 == ')') &&
        ((('A' : Char) ≤ c2 && c2 ≤ 'Z') || (('0' : Char) ≤ c2 && c2 ≤ '9')) then
      some 3
    else none
  | _ => none

/-- Pass 5: ESC followed by one of `> = < ~ } |`. -/
def matchEscSingle (l : List Char) : Option Nat :=
  match l with
  | '\x1b' :: c :: _ =>
    if c == '>' || c == '=' || c == '<' || c == '~' || c == '}' || c == '|' then
      some 2
    else none
  | _ => none

/-- Pass 6: full CSI with parameters, intermediate bytes and a final byte. -/
def matchCsiFull (l : List Char) : Option Nat :=
  match l with
  | '\x1b' :: '[' :: rest =>
    let ps := rest.takeWhile isParamChar
    let rest1 := rest.drop ps.length
    let ins := rest1.takeWhile isIntermediate
    match rest1.drop ins.length with
    | c :: _ => if isFinalByte c then some (2 + ps.length + ins.length + 1) else none
    | [] => none
  | _ => none

/-- Pass 7: a bare `[`, optional `?`, parameter characters, a letter
(the source applies this even without a preceding escape byte). -/
def matchBracket (l : List Char) : Option Nat :=
  match l with
  | '[' :: rest =>
    let pr :=
      match rest with
      | c :: cs => if c == '?' then (1, cs) else (0, rest)
      | [] => (0, ([] : List Char))
    let ps := pr.2.takeWhile isParamChar
    match pr.2.drop ps.length with
    | c :: _ => if isAsciiLetter c then some (1 + pr.1 + ps.length + 1) else none
    | [] => none
  | _ => none

/-- Pass 8: remove carriage returns. -/
def matchCr (l : List Char) : Option Nat :=
  match l with
  | '\r' :: _ => some 1
  | _ => none

/-- Replays one JavaScript global regex replacement with the empty string:
scan left to right, at each position delete the match found by `m` there
(every matcher only reports matches of length at least one) and resume
after it.  The fuel argument is the list length, so the recursion is
structural. -/
def applyPassAux (m : List Char → Option Nat) : Nat → List Char → List Char
  | _, [] => []
  | 0, l => l
  | fuel + 1, c :: cs =>
    match m (c :: cs) with
    | some (n + 1) => applyPassAux m fuel (cs.drop n)
    | _ => c :: applyPassAux m fuel cs

/-- One global replace-with-empty pass over a character list. -/
def applyPass (m : List Char → Option Nat) (l : List Char) : List Char :=
  applyPassAux m l.length l

/-- The eight passes of `stripAnsi`, in source order. -/
def stripAnsiL (l : List Char) : List Char :=
  applyPass matchCr
    (applyPass matchBracket
      (applyPass matchCsiFull
        (applyPass matchEscSingle
          (applyPass matchCharset
            (applyPass matchOsc
              (applyPass matchCsi8
                (applyPass matchCsi l)))))))

/-- `stripAnsi` from Terminal.jsx: best-effort ANSI/OSC scrubber removing
CSI, OSC and charset-select sequences and carriage returns. -/
def stripAnsi (s : String) : String := ⟨stripAnsiL s.data⟩

/-! ### Sentinel capture (Terminal.jsx `runAgentCommand` and the
`ssh:output` handler) -/

/-- The marker echoed after each agent command. -/
def AGENT_SENTINEL : String := "__JUNI_AGENT_DONE__"

/-- First index of a line break followed immediately by the marker
(the regex `[\r\n]` followed by the marker, via `exec`). -/
def findSentinelIdx (marker : List Char) : List Char → Option Nat
  | [] => none
  | c :: cs =>
    if (c == '\r' || c == '\n') && startsWithL marker cs then some 0
    else (findSentinelIdx marker cs).map (· + 1)

/-- Extraction applied once the marker is found at index `i` of the
scrubbed buffer: keep everything before the line break, skip past the
first line (the command echo) when one exists, and trim. -/
def extractBefore (stripped : List Char) (i : Nat) : String :=
  let beforeSentinel := stripped.take i
  match firstIdx (fun c => c == '\n') beforeSentinel with
  | some fn => ⟨jsTrimL (beforeSentinel.drop (fn + 1))⟩
  | none => ⟨jsTrimL beforeSentinel⟩

/-- The sentinel-capture extraction algorithm of the `ssh:output` handler:
scrub the accumulated buffer, look for a line break followed by the marker,
and on a match return the extracted command output. -/
def sentinelExtract (marker buffer : String) : Option String :=
  let stripped := stripAnsiL buffer.data
  (findSentinelIdx marker.data stripped).map (extractBefore stripped)

/-! ### Capture resolution values and the timeout heuristic -/

/-- The sentinel-capture deadline in milliseconds (Terminal.jsx line 145). -/
def SENTINEL_TIMEOUT_MS : Nat := 60000

/-- The sample-capture quiescence window in milliseconds (line 128). -/
def SAMPLE_TIMEOUT_MS : Nat := 3000

/-- Fallback text resolved when the sentinel capture times out with an
empty scrubbed buffer. -/
def TIMEOUT_MSG : String := "(command timed out after 60s — it may be waiting for input)"

/-- Fixed placeholder used by `abortAgentCapture`. -/
def ABORT_MSG : String := "(aborted by user)"

/-- Fallback text when a sample capture sees no output in its window. -/
def NO_OUTPUT_MSG : String := "(no visible output after sending keys)"

/-- The sentinel-capture timer callback value: the scrubbed, trimmed
buffer, or the fixed timeout message when that is empty (the JavaScript
`raw short-circuit-or message`). -/
def timeoutResolve (buffer : String) : String :=
  let raw := jsTrim (stripAnsi buffer)
  if raw = "" then TIMEOUT_MSG else raw

/-- `abortAgentCapture` value for a pending sentinel capture. -/
def abortSentinelResolve (buffer : String) : String :=
  let raw := jsTrim (stripAnsi buffer)
  if raw = "" then ABORT_MSG else raw

/-- Sample-capture window-elapsed value. -/
def sampleTimeoutResolve (buffer : String) : String :=
  let cleaned := jsTrim (stripAnsi buffer)
  if cleaned = "" then NO_OUTPUT_MSG else cleaned

/-- How `executeAgentCommand` in GeminiChat.jsx classifies a capture result
as a timeout: a substring probe of the resolved output. -/
def timedOutHeuristic (output : String) : Bool :=
  jsIncludes output "timed out" || jsIncludes output "waiting for input"

/-! ### The capture engine state machine (Terminal.jsx)

Terminal.jsx holds two nullable refs: `agentCaptureRef` (sentinel capture,
set by `runAgentCommand`) and `agentKeysRef` (sample capture, set by
`sendAgentKeys`).  `Caps` models the pair: each slot, when pending, holds
the accumulated buffer.  The events are the `ssh:output` socket handler,
the two timer callbacks, the external `abortAgentCapture` entry point,
and the two capture-start calls. -/

/-- The two capture refs: `sentCap` is `agentCaptureRef` and `sampCap`
is `agentKeysRef` together with its closed-over output buffer. -/
structure Caps where
  sentCap : Option String
  sampCap : Option String
deriving DecidableEq

/-- Which capture a resolution belongs to. -/
inductive ResKind
  | sent
  | samp
deriving DecidableEq

/-- Events acting on the capture refs. -/
inductive CapEvent
  | output (data : String)
  | sentTimer
  | sampTimer
  | abort
  | startSent
  | startSamp
deriving DecidableEq

/-- One event of the capture engine, returning the new ref states and the
list of resolver invocations the event performs (kind and resolved value).

`output`: both pending buffers append the chunk; the sentinel side then
scrubs and scans for the line-break-preceded marker, and on a match clears
the timer and ref and resolves with the extracted output.
`sentTimer` and `sampTimer`: the two timeout callbacks.
`abort`: `abortAgentCapture`, which resolves a pending sentinel capture
with the scrubbed trimmed buffer (placeholder when empty) and a pending
sample capture with the fixed placeholder, clearing timers and refs.
`startSent` and `startSamp`: `runAgentCommand` and `sendAgentKeys`
installing a fresh capture with an empty buffer. -/
def capStep (s : Caps) : CapEvent → Caps × List (ResKind × String)
  | CapEvent.output data =>
    let samp2 := s.sampCap.map (fun b => b ++ data)
    match s.sentCap with
    | some buf =>
      match sentinelExtract AGENT_SENTINEL (buf ++ data) with
      | some v => (⟨none, samp2⟩, [(ResKind.sent, v)])
      | none => (⟨some (buf ++ data), samp2⟩, [])
    | none => (⟨none, samp2⟩, [])
  | CapEvent.sentTimer =>
    match s.sentCap with
    | some buf => (⟨none, s.sampCap⟩, [(ResKind.sent, timeoutResolve buf)])
    | none => (s, [])
  | CapEvent.sampTimer =>
    match s.sampCap with
    | some buf => (⟨s.sentCap, none⟩, [(ResKind.samp, sampleTimeoutResolve buf)])
    | none => (s, [])
  | CapEvent.abort =>
    let rs1 :=
      match s.sentCap with
      | some buf => [(ResKind.sent, abortSentinelResolve buf)]
      | none => []
    let rs2 :=
      match s.sampCap with
      | some _ => [(ResKind.samp, ABORT_MSG)]
      | none => []
    (⟨none, none⟩, rs1 ++ rs2)
  | CapEvent.startSent => (⟨some "", s.sampCap⟩, [])
  | CapEvent.startSamp => (⟨s.sentCap, some ""⟩, [])

/-- Run a sequence of capture events, collecting all resolver invocations. -/
def runCaps : Caps → List CapEvent → Caps × List (ResKind × String)
  | s, [] => (s, [])
  | s, e :: es =>
    ((runCaps (capStep s e).1 es).1, (capStep s e).2 ++ (runCaps (capStep s e).1 es).2)

/-- Number of pending captures. -/
def pendingCount (s : Caps) : Nat :=
  (if s.sentCap.isSome then 1 else 0) + (if s.sampCap.isSome then 1 else 0)

/-- Capture-start events (excluded by the single-active-capture contract
while a request is pending). -/
def isStart : CapEvent → Bool
  | CapEvent.startSent => true
  | CapEvent.startSamp => true
  | _ => false

/-! ### Key translation (`sendAgentKeys`, Terminal.jsx lines 65-132) -/

/-- The fixed symbolic-key-name table `KEY_MAP`. -/
def KEY_MAP : List (String × String) :=
  [("Enter", "\r"), ("Return", "\r"), ("Tab", "\t"), ("Escape", "\x1b"),
   ("Esc", "\x1b"), ("Backspace", "\x7f"), ("Delete", "\x1b[3~"),
   ("Up", "\x1b[A"), ("Down", "\x1b[B"), ("Right", "\x1b[C"), ("Left", "\x1b[D"),
   ("Home", "\x1b[H"), ("End", "\x1b[F"), ("PageUp", "\x1b[5~"),
   ("PageDown", "\x1b[6~"), ("Ctrl+C", "\x03"), ("Ctrl+D", "\x04"),
   ("Ctrl+Z", "\x1a"), ("Ctrl+L", "\x0c"), ("Ctrl+A", "\x01"),
   ("Ctrl+E", "\x05"), ("Ctrl+K", "\x0b"), ("Ctrl+U", "\x15"),
   ("Ctrl+W", "\x17"), ("Ctrl+R", "\x12"), ("Space", " ")]

/-- Properties every JavaScript object literal inherits from the base
object prototype, paired with the string each value coerces to when the
source appends it with `payload += KEY_MAP[token]` (the V8 renderings:
built-in functions print as `function NAME() \x7b [native code] \x7d`,
and the `__proto__` accessor yields the base prototype object itself,
which coerces to `[object Object]`).  Bracket access on the `KEY_MAP`
object literal consults these after the own keys, so
`KEY_MAP[token] !== undefined` also accepts these twelve names. -/
def PROTO_PROPS : List (String × String) :=
  [("constructor", "function Object() \x7b [native code] \x7d"),
   ("hasOwnProperty", "function hasOwnProperty() \x7b [native code] \x7d"),
   ("isPrototypeOf", "function isPrototypeOf() \x7b [native code] \x7d"),
   ("propertyIsEnumerable", "function propertyIsEnumerable() \x7b [native code] \x7d"),
   ("toLocaleString", "function toLocaleString() \x7b [native code] \x7d"),
   ("toString", "function toString() \x7b [native code] \x7d"),
   ("valueOf", "function valueOf() \x7b [native code] \x7d"),
   ("__defineGetter__", "function __defineGetter__() \x7b [native code] \x7d"),
   ("__defineSetter__", "function __defineSetter__() \x7b [native code] \x7d"),
   ("__lookupGetter__", "function __lookupGetter__() \x7b [native code] \x7d"),
   ("__lookupSetter__", "function __lookupSetter__() \x7b [native code] \x7d"),
   ("__proto__", "[object Object]")]

/-- `KEY_MAP[token]`: JavaScript bracket access on the object literal.
An own key of the table wins; otherwise the lookup walks the prototype
chain, so the twelve inherited base-prototype property names are also
found (returned here as the string the property value coerces to under
the `+=` append); only then is the access `undefined`. -/
def keyLookup (t : String) : Option String :=
  match (KEY_MAP.find? (fun p => p.1 == t)).map (fun p => p.2) with
  | some v => some v
  | none => (PROTO_PROPS.find? (fun p => p.1 == t)).map (fun p => p.2)

/-- The payload `sendAgentKeys` sends: split the keys string on whitespace
runs, translate each token through the `KEY_MAP` bracket access when that
is defined (an own table key, or an inherited prototype property appended
in coerced form), pass the token through literally otherwise, and
concatenate. -/
def sendKeysPayload (keys : String) : String :=
  (jsSplitWs keys).foldl
    (fun payload token => payload ++ (keyLookup token).getD token) ""

/-- Modelled from the spec (as amended for C8): the payload described as
mapping each whitespace-separated token through the bracket-access lookup
(symbolic-key table, else inherited prototype property, else the literal
token) and joining the translated tokens, for comparison with
`sendKeysPayload`. -/
def sendKeysSpec (keys : String) : String :=
  ((jsSplitWs keys).map (fun t => (keyLookup t).getD t)).foldl
    (fun a b => a ++ b) ""

/-- Tokens whose translated contribution contains a space character: the
symbolic name `Space`, and the inherited prototype property names (all
their coerced values contain spaces). -/
def spaceToken (t : String) : Bool :=
  t == "Space" || (PROTO_PROPS.find? (fun p => p.1 == t)).isSome

/-! ### The session bridge backend (src/main.js socket handler) -/

/-- Observable cleanup side effects of `cleanupBackend`. -/
inductive CleanupAction
  | killPty
  | endStream
  | endClient
deriving DecidableEq

/-- The three nullable backend handles held per socket connection. -/
structure BackendState where
  ptyProcess : Bool
  sshStream : Bool
  sshClient : Bool
deriving DecidableEq

/-- `cleanupBackend` (main.js lines 449-458): kill the pty when present,
end the shell stream, end the transport connection, then null all three. -/
def cleanupBackend (s : BackendState) : BackendState × List CleanupAction :=
  let acts1 := if s.ptyProcess then [CleanupAction.killPty] else []
  let acts2 := if s.sshStream then [CleanupAction.endStream] else []
  let acts3 := if s.sshClient then [CleanupAction.endClient] else []
  (⟨false, false, false⟩, acts1 ++ acts2 ++ acts3)

/-- Terminal window size. -/
structure WinSize where
  cols : Nat
  rows : Nat
deriving DecidableEq

/-- Which backend a session spawned. -/
inductive BackendKind
  | localPty
  | remoteShell
deriving DecidableEq

/-- Per-session bridge state: the `pendingSize` slot and the backend (with
the terminal size it currently has). -/
structure SessionState where
  pendingSize : WinSize
  backend : Option (BackendKind × WinSize)
deriving DecidableEq

/-- Initial per-connection state: `pendingSize` starts as 80 columns by
24 rows, no backend. -/
def initSession : SessionState :=
  ⟨⟨80, 24⟩, none⟩

/-- `resizeBackend` (main.js lines 443-447): always record the size in
`pendingSize`, and apply it to the live backend when one exists. -/
def resizeBackend (s : SessionState) (cols rows : Nat) : SessionState :=
  { pendingSize := ⟨cols, rows⟩,
    backend := s.backend.map (fun p => (p.1, ⟨cols, rows⟩)) }

/-- Backend spawn (`ssh:connect` handler): the local pty is spawned with
`pendingSize`, and the remote shell channel is opened with `pendingSize`. -/
def spawnBackend (s : SessionState) (k : BackendKind) : SessionState :=
  { s with backend := some (k, s.pendingSize) }

/-- A sequence of resize requests. -/
def applyResizes : SessionState → List WinSize → SessionState
  | s, [] => s
  | s, sz :: rest => applyResizes (resizeBackend s sz.cols sz.rows) rest

/-! ### The agent loop (GeminiChat.jsx `startAgentLoop` and friends)

The asynchronous loop is modelled as a small-step machine.  `AgentPC`
records where the coroutine is suspended; `agentLoopTick` advances it by
one scheduled continuation; `stopAgent`, `pauseAgent` and `resumeAgent`
are the external control entry points.  Model responses (and the capture
output their actions produce) are supplied by a script inside the state,
one entry per model call. -/

/-- A finished step record of the step log (`agentSteps`), with its final
status: a command step is `timeout` exactly when the timed-out flag is
set, every other record ends as `done`. -/
inductive StepType
  | command (reasoning output : String) (timedOut : Bool)
  | sendKeys (reasoning output : String)
  | complete (summary : String)
  | aborted
  | error (msg : String)
deriving DecidableEq

/-- One scripted model response, combined with the capture output its
action produces when executed.  `failure` models a model call that throws
(`isAbort` distinguishes the AbortError of an explicit cancellation). -/
inductive ModelResult
  | command (command reasoning output : String)
  | sendKeys (keys reasoning output : String)
  | complete (summary : String)
  | text (t : String)
  | failure (msg : String) (isAbort : Bool)
deriving DecidableEq

/-- Where the agent-loop coroutine is suspended. -/
inductive AgentPC
  | loopTop (i : Nat)
  | pausedWait (i : Nat)
  | postPause (i : Nat)
  | finished
deriving DecidableEq

/-- The `pausedResolverRef` slot: null, the string sentinel `pending`, or
an armed promise resolver. -/
inductive PausedSlot
  | idle
  | pending
  | armed
deriving DecidableEq

/-- The agent run state. -/
structure AgentState where
  pc : AgentPC
  abortFlag : Bool
  pausedSlot : PausedSlot
  running : Bool
  paused : Bool
  stopping : Bool
  steps : List StepType
  script : List ModelResult
  modelCalls : Nat
  captureAborts : Nat
  finalText : Option String
deriving DecidableEq

/-- The `finally` block of `startAgentLoop`: clear the run flags and the
paused resolver, and mark the coroutine finished. -/
def finishRun (s : AgentState) : AgentState :=
  { s with running := false, paused := false, stopping := false,
           pausedSlot := PausedSlot.idle, pc := AgentPC.finished }

/-- The model-call part of one iteration: pop the next scripted response
and interpret it exactly as `startAgentLoop` does.  A command result is
classified by the timed-out substring heuristic, which marks the step
`timeout` and sets the abort latch; text and completion break the loop;
a throwing call lands in the catch block (aborted or error step).  An
exhausted script is modelled as a throwing model call. -/
def dispatch (s : AgentState) (i : Nat) : AgentState :=
  match s.script with
  | [] =>
    finishRun { s with modelCalls := s.modelCalls + 1,
                       steps := s.steps ++ [StepType.error "model call failed"] }
  | r :: rest =>
    let s1 := { s with script := rest, modelCalls := s.modelCalls + 1 }
    match r with
    | ModelResult.failure msg isAbort =>
      if isAbort then finishRun { s1 with steps := s1.steps ++ [StepType.aborted] }
      else finishRun { s1 with steps := s1.steps ++ [StepType.error msg] }
    | ModelResult.text t => finishRun { s1 with finalText := some t }
    | ModelResult.complete summary =>
      finishRun { s1 with steps := s1.steps ++ [StepType.complete summary] }
    | ModelResult.command _ reasoning output =>
      let tm := timedOutHeuristic output
      { s1 with steps := s1.steps ++ [StepType.command reasoning output tm],
                abortFlag := s1.abortFlag || tm,
                pc := AgentPC.loopTop (i + 1) }
    | ModelResult.sendKeys _ reasoning output =>
      { s1 with steps := s1.steps ++ [StepType.sendKeys reasoning output],
                pc := AgentPC.loopTop (i + 1) }

/-- One scheduled continuation of the loop.  At the top of an iteration:
the 20-iteration cap, then the abort check (recording an aborted step),
then the cooperative pause check (arming the resolver and suspending),
then the model call.  After a pause-wait resolves: re-check the abort
latch (abort wins over resume) before calling the model.  A coroutine
blocked in the pause-wait, or already finished, does not advance. -/
def agentLoopTick (s : AgentState) : AgentState :=
  match s.pc with
  | AgentPC.finished => s
  | AgentPC.pausedWait _ => s
  | AgentPC.postPause i =>
    let s1 := { s with paused := false }
    if s1.abortFlag then finishRun { s1 with steps := s1.steps ++ [StepType.aborted] }
    else dispatch s1 i
  | AgentPC.loopTop i =>
    if 20 ≤ i then finishRun s
    else if s.abortFlag then finishRun { s with steps := s.steps ++ [StepType.aborted] }
    else if s.pausedSlot = PausedSlot.pending then
      { s with paused := true, pausedSlot := PausedSlot.armed, pc := AgentPC.pausedWait i }
    else dispatch s i

/-- Calling the armed pause resolver and nulling it: the blocked await
resumes at the post-pause check. -/
def resolvePause (s : AgentState) : AgentState :=
  match s.pausedSlot with
  | PausedSlot.armed =>
    { s with pausedSlot := PausedSlot.idle,
             pc := match s.pc with
                   | AgentPC.pausedWait i => AgentPC.postPause i
                   | other => other }
  | _ => s

/-- `stopAgent`: set the abort latch and the stopping flag, abort any
in-flight model call, abort any pending capture, resolve an armed
pause-wait, and clear the paused flag. -/
def stopAgent (s : AgentState) : AgentState :=
  let s1 := { s with abortFlag := true, stopping := true,
                     captureAborts := s.captureAborts + 1 }
  { resolvePause s1 with paused := false }

/-- `pauseAgent`: request a cooperative pause (only while running and not
already paused); takes effect at the top of the next iteration. -/
def pauseAgent (s : AgentState) : AgentState :=
  if s.running && !s.paused then { s with pausedSlot := PausedSlot.pending } else s

/-- `resumeAgent`: resolve an armed pause-wait. -/
def resumeAgent (s : AgentState) : AgentState :=
  resolvePause s

/-- Entry of `startAgentLoop`: clear the abort latch, the paused state and
the step log, set `running`, and start at iteration 0 with the given
response script. -/
def initAgent (script : List ModelResult) : AgentState :=
  { pc := AgentPC.loopTop 0, abortFlag := false, pausedSlot := PausedSlot.idle,
    running := true, paused := false, stopping := false, steps := [],
    script := script, modelCalls := 0, captureAborts := 0, finalText := none }

/-- Advance the loop by `n` scheduled continuations. -/
def runTicks : Nat → AgentState → AgentState
  | 0, s => s
  | n + 1, s => runTicks n (agentLoopTick s)

/-- A scripted response that neither completes, answers with text,
fails, nor is classified as a timeout: the loop keeps iterating. -/
def nonTerminalResult : ModelResult → Bool
  | ModelResult.command _ _ output => !timedOutHeuristic output
  | ModelResult.sendKeys _ _ _ => true
  | _ => false

/-- Terminal step records of the step log. -/
def isTerminalStep : StepType → Bool
  | StepType.complete _ => true
  | StepType.aborted => true
  | StepType.error _ => true
  | _ => false

/-! ### Helper lemmas -/

theorem string_data_append (a b : String) : (a ++ b).data = a.data ++ b.data := by
  cases a
  cases b
  rfl

/-- Every capture-engine event that performs resolutions removes exactly
that many pending captures (and a start-free event never adds one). -/
theorem capStep_count (s : Caps) (e : CapEvent) (hne : isStart e = false) :
    (capStep s e).2.length + pendingCount (capStep s e).1 = pendingCount s := by
  obtain ⟨sent, samp⟩ := s
  cases e with
  | output data =>
    cases sent with
    | none => cases samp <;> simp [capStep, pendingCount]
    | some buf =>
      cases hf : sentinelExtract AGENT_SENTINEL (buf ++ data) with
      | none => cases samp <;> simp [capStep, hf, pendingCount]
      | some v => cases samp <;> simp [capStep, hf, pendingCount]
  | sentTimer => cases sent <;> cases samp <;> simp [capStep, pendingCount]
  | sampTimer => cases sent <;> cases samp <;> simp [capStep, pendingCount]
  | abort => cases sent <;> cases samp <;> simp [capStep, pendingCount]
  | startSent => simp [isStart] at hne
  | startSamp => simp [isStart] at hne

theorem runCaps_count : ∀ (evs : List CapEvent) (s : Caps),
    (∀ e ∈ evs, isStart e = false) →
    (runCaps s evs).2.length + pendingCount (runCaps s evs).1 = pendingCount s := by
  intro evs
  induction evs with
  | nil => intro s _; simp [runCaps]
  | cons e es ih =>
    intro s h
    have h1 := capStep_count s e (h e (List.mem_cons_self e es))
    have h2 := ih (capStep s e).1 (fun x hx => h x (List.mem_cons_of_mem e hx))
    simp only [runCaps, List.length_append]
    omega

/-- An event that performs no resolution leaves a pending sentinel capture
pending; in particular it cannot have been the sentinel timer. -/
theorem capStep_sent_pending (s : Caps) (e : CapEvent)
    (hsome : s.sentCap.isSome = true) (hres : (capStep s e).2 = []) :
    (capStep s e).1.sentCap.isSome = true ∧ e ≠ CapEvent.sentTimer := by
  obtain ⟨sent, samp⟩ := s
  cases sent with
  | none => simp at hsome
  | some buf =>
    cases e with
    | output data =>
      cases hf : sentinelExtract AGENT_SENTINEL (buf ++ data) with
      | some v =>
        simp only [capStep] at hres
        rw [hf] at hres
        simp at hres
      | none =>
        refine ⟨?_, by simp⟩
        simp only [capStep]
        rw [hf]
        rfl
    | sentTimer =>
      simp only [capStep] at hres
      simp at hres
    | sampTimer =>
      cases samp with
      | some b =>
        simp only [capStep] at hres
        simp at hres
      | none => exact ⟨rfl, by simp⟩
    | abort =>
      simp only [capStep] at hres
      simp at hres
    | startSent => exact ⟨rfl, by simp⟩
    | startSamp => exact ⟨rfl, by simp⟩

/-- Analogue of `capStep_sent_pending` for the sample capture. -/
theorem capStep_samp_pending (s : Caps) (e : CapEvent)
    (hsome : s.sampCap.isSome = true) (hres : (capStep s e).2 = []) :
    (capStep s e).1.sampCap.isSome = true ∧ e ≠ CapEvent.sampTimer := by
  obtain ⟨sent, samp⟩ := s
  cases samp with
  | none => simp at hsome
  | some bufk =>
    cases e with
    | output data =>
      cases sent with
      | none => exact ⟨rfl, by simp⟩
      | some buf =>
        cases hf : sentinelExtract AGENT_SENTINEL (buf ++ data) with
        | some v =>
          simp only [capStep] at hres
          rw [hf] at hres
          simp at hres
        | none =>
          refine ⟨?_, by simp⟩
          simp only [capStep]
          rw [hf]
          rfl
    | sentTimer =>
      cases sent with
      | some b =>
        simp only [capStep] at hres
        simp at hres
      | none => exact ⟨rfl, by simp⟩
    | sampTimer =>
      simp only [capStep] at hres
      simp at hres
    | abort =>
      simp only [capStep] at hres
      simp at hres
    | startSent => exact ⟨rfl, by simp⟩
    | startSamp => exact ⟨rfl, by simp⟩

/-- With a pending sentinel capture, an event sequence containing the
sentinel timer performs at least one resolution. -/
theorem runCaps_ge_one_sent : ∀ (evs : List CapEvent) (s : Caps),
    s.sentCap.isSome = true → CapEvent.sentTimer ∈ evs →
    1 ≤ (runCaps s evs).2.length := by
  intro evs
  induction evs with
  | nil => intro s _ hmem; cases hmem
  | cons e es ih =>
    intro s hsome hmem
    simp only [runCaps, List.length_append]
    by_cases hres : (capStep s e).2 = []
    · obtain ⟨hsome2, hne⟩ := capStep_sent_pending s e hsome hres
      rcases List.mem_cons.mp hmem with rfl | hmem2
      · exact absurd rfl hne
      · have := ih (capStep s e).1 hsome2 hmem2
        omega
    · have h1 : 1 ≤ (capStep s e).2.length := by
        cases hq : (capStep s e).2 with
        | nil => exact absurd hq hres
        | cons a l => simp
      omega

/-- With a pending sample capture, an event sequence containing the
sample timer performs at least one resolution. -/
theorem runCaps_ge_one_samp : ∀ (evs : List CapEvent) (s : Caps),
    s.sampCap.isSome = true → CapEvent.sampTimer ∈ evs →
    1 ≤ (runCaps s evs).2.length := by
  intro evs
  induction evs with
  | nil => intro s _ hmem; cases hmem
  | cons e es ih =>
    intro s hsome hmem
    simp only [runCaps, List.length_append]
    by_cases hres : (capStep s e).2 = []
    · obtain ⟨hsome2, hne⟩ := capStep_samp_pending s e hsome hres
      rcases List.mem_cons.mp hmem with rfl | hmem2
      · exact absurd rfl hne
      · have := ih (capStep s e).1 hsome2 hmem2
        omega
    · have h1 : 1 ≤ (capStep s e).2.length := by
        cases hq : (capStep s e).2 with
        | nil => exact absurd hq hres
        | cons a l => simp
      omega

/-- Every token produced by the whitespace split is whitespace-free. -/
theorem splitWsAux_no_ws : ∀ (l : List Char) (g : Bool) (acc : List Char),
    (∀ c ∈ acc, isJsWs c = false) →
    ∀ t ∈ splitWsAux l g acc, ∀ c ∈ t, isJsWs c = false := by
  intro l
  induction l with
  | nil =>
    intro g acc hacc t ht c hc
    simp only [splitWsAux, List.mem_singleton] at ht
    subst ht
    exact hacc c (List.mem_reverse.mp hc)
  | cons x xs ih =>
    intro g acc hacc t ht c hc
    by_cases hx : isJsWs x
    · cases g with
      | true =>
        simp only [splitWsAux, hx, if_true] at ht
        exact ih true acc hacc t ht c hc
      | false =>
        simp only [splitWsAux, hx, if_true, Bool.false_eq_true, if_false,
          List.mem_cons] at ht
        rcases ht with rfl | ht2
        · exact hacc c (List.mem_reverse.mp hc)
        · exact ih true [] (by simp) t ht2 c hc
    · have hx2 : isJsWs x = false := by
        cases hq : isJsWs x with
        | true => exact absurd hq hx
        | false => rfl
      simp only [splitWsAux, hx2, Bool.false_eq_true, if_false] at ht
      refine ih false (x :: acc) ?_ t ht c hc
      intro c2 hc2
      rcases List.mem_cons.mp hc2 with rfl | hc3
      · exact hx2
      · exact hacc c2 hc3

/-- Tokens of the key split contain no whitespace characters. -/
theorem tokens_no_ws (keys t : String) (ht : t ∈ jsSplitWs keys) :
    ∀ c ∈ t.data, isJsWs c = false := by
  obtain ⟨l, hl, rfl⟩ := List.mem_map.mp ht
  intro c hc
  exact splitWsAux_no_ws keys.data false [] (by simp) l hl c hc

/-- In the symbolic-key table, the only value containing a space is the
value of the key `Space`. -/
theorem keymap_space : ∀ p ∈ KEY_MAP, (' ' ∈ p.2.data ↔ p.1 = "Space") := by decide

/-- No symbolic-key name collides with an inherited prototype property
name, so own keys and inherited names partition the defined lookups. -/
theorem keymap_not_proto :
    ∀ p ∈ KEY_MAP, PROTO_PROPS.find? (fun q => q.1 == p.1) = none := by decide

/-- Every inherited prototype property coerces to a string containing a
space. -/
theorem proto_values_space : ∀ q ∈ PROTO_PROPS, ' ' ∈ q.2.data := by decide

/-- A whitespace-free token contributes a space to the payload exactly
when it is the symbolic name `Space` or an inherited prototype property
name. -/
theorem contrib_space (t : String) (hws : ∀ c ∈ t.data, isJsWs c = false) :
    (' ' ∈ ((keyLookup t).getD t).data ↔ spaceToken t = true) := by
  cases hk : KEY_MAP.find? (fun p => p.1 == t) with
  | some p =>
    have hmem := List.mem_of_find?_eq_some hk
    have hpt : p.1 = t := by
      have := List.find?_some hk
      simpa using this
    have hlk : keyLookup t = some p.2 := by
      simp [keyLookup, hk]
    rw [hlk, Option.getD_some]
    have hnp := keymap_not_proto p hmem
    rw [hpt] at hnp
    have hks := keymap_space p hmem
    rw [hks, hpt]
    simp [spaceToken, hnp]
  | none =>
    cases hp : PROTO_PROPS.find? (fun q => q.1 == t) with
    | some q =>
      have hmem := List.mem_of_find?_eq_some hp
      have hlk : keyLookup t = some q.2 := by
        simp [keyLookup, hk, hp]
      rw [hlk, Option.getD_some]
      constructor
      · intro _
        simp [spaceToken, hp]
      · intro _
        exact proto_values_space q hmem
    | none =>
      have hlk : keyLookup t = none := by
        simp [keyLookup, hk, hp]
      rw [hlk, Option.getD_none]
      constructor
      · intro hmem
        exact absurd (hws ' ' hmem) (by decide)
      · intro hsp
        simp [spaceToken, hp] at hsp
        subst hsp
        have hne : KEY_MAP.find? (fun p => p.1 == "Space") ≠ none := by decide
        exact absurd hk hne

/-- Character membership in the translated payload, unfolded over the
token fold. -/
theorem foldl_payload_mem : ∀ (ts : List String) (acc : String) (c : Char),
    (c ∈ (ts.foldl (fun payload token => payload ++ (keyLookup token).getD token) acc).data ↔
      c ∈ acc.data ∨ ∃ t ∈ ts, c ∈ ((keyLookup t).getD t).data) := by
  intro ts
  induction ts with
  | nil => intro acc c; simp
  | cons t ts ih =>
    intro acc c
    rw [List.foldl_cons, ih, string_data_append]
    simp only [List.mem_append, List.mem_cons, exists_eq_or_imp, or_assoc]

/-- After any resize sequence, `pendingSize` holds the last requested
size. -/
theorem applyResizes_pending : ∀ (rs : List WinSize) (s : SessionState) (last : WinSize),
    rs.getLast? = some last → (applyResizes s rs).pendingSize = last := by
  intro rs
  induction rs with
  | nil => intro s last h; exact Option.noConfusion h
  | cons sz rest ih =>
    intro s last h
    cases rest with
    | nil =>
      simp only [List.getLast?_singleton, Option.some.injEq] at h
      subst h
      simp [applyResizes, resizeBackend]
    | cons sz2 rest2 =>
      rw [List.getLast?_cons_cons] at h
      exact ih (resizeBackend s sz.cols sz.rows) last h

/-- Resizes do not create a backend. -/
theorem applyResizes_backend_none : ∀ (rs : List WinSize) (s : SessionState),
    s.backend = none → (applyResizes s rs).backend = none := by
  intro rs
  induction rs with
  | nil => intro s h; exact h
  | cons sz rest ih =>
    intro s h
    exact ih _ (by simp [resizeBackend, h])

/-- Invariant carried through the remaining iterations of an agent run
that keeps receiving non-terminal scripted responses: after the final
tick past the iteration cap, the run has stopped with no terminal step
added, having made one model call per remaining iteration. -/
theorem agentLoop_cap_aux (k : Nat) : ∀ (s : AgentState) (i : Nat),
    s.pc = AgentPC.loopTop i → i + k = 20 → s.abortFlag = false →
    s.pausedSlot = PausedSlot.idle →
    (∀ r ∈ s.script, nonTerminalResult r = true) → k ≤ s.script.length →
    (runTicks (k + 1) s).running = false ∧
    (runTicks (k + 1) s).pc = AgentPC.finished ∧
    (runTicks (k + 1) s).finalText = s.finalText ∧
    (runTicks (k + 1) s).modelCalls = s.modelCalls + k ∧
    (∀ st ∈ (runTicks (k + 1) s).steps, st ∈ s.steps ∨ isTerminalStep st = false) := by
  induction k with
  | zero =>
    intro s i hpc hik hab hslot _ _
    have hi : i = 20 := by omega
    subst hi
    have hred : runTicks 1 s = finishRun s := by
      simp [runTicks, agentLoopTick, hpc]
    rw [hred]
    exact ⟨rfl, rfl, rfl, rfl, fun st hst => Or.inl hst⟩
  | succ k ih =>
    intro s i hpc hik hab hslot hscript hlen
    have hi : ¬ 20 ≤ i := by omega
    cases hs : s.script with
    | nil =>
      rw [hs] at hlen
      simp at hlen
    | cons r rest =>
      have hr : nonTerminalResult r = true := hscript r (by rw [hs]; exact List.mem_cons_self r rest)
      have hrest : ∀ x ∈ rest, nonTerminalResult x = true :=
        fun x hx => hscript x (by rw [hs]; exact List.mem_cons_of_mem r hx)
      have hlen2 : k ≤ rest.length := by
        rw [hs] at hlen
        simpa using hlen
      have hstep : runTicks (k + 1 + 1) s = runTicks (k + 1) (agentLoopTick s) := rfl
      cases r with
      | command c reasn out =>
        have htm : timedOutHeuristic out = false := by
          simpa [nonTerminalResult] using hr
        have hred : agentLoopTick s
            = { s with script := rest, modelCalls := s.modelCalls + 1,
                       steps := s.steps ++ [StepType.command reasn out false],
                       abortFlag := false,
                       pc := AgentPC.loopTop (i + 1) } := by
          simp [agentLoopTick, hpc, hi, hslot, dispatch, hs, htm, hab]
        have hnext := ih (agentLoopTick s) (i + 1)
          (by rw [hred]) (by omega) (by rw [hred]) (by rw [hred]; exact hslot)
          (by rw [hred]; exact hrest) (by rw [hred]; exact hlen2)
        rw [hstep]
        refine ⟨hnext.1, hnext.2.1, ?_, ?_, ?_⟩
        · rw [hnext.2.2.1, hred]
        · rw [hnext.2.2.2.1, hred]
          simp only []
          omega
        · intro st hst
          rcases hnext.2.2.2.2 st hst with hmem | hterm
          · rw [hred] at hmem
            simp only [List.mem_append, List.mem_singleton] at hmem
            rcases hmem with hmem2 | rfl
            · exact Or.inl hmem2
            · exact Or.inr rfl
          · exact Or.inr hterm
      | sendKeys ks reasn out =>
        have hred : agentLoopTick s
            = { s with script := rest, modelCalls := s.modelCalls + 1,
                       steps := s.steps ++ [StepType.sendKeys reasn out],
                       pc := AgentPC.loopTop (i + 1) } := by
          simp [agentLoopTick, hpc, hi, hslot, dispatch, hs, hab]
        have hnext := ih (agentLoopTick s) (i + 1)
          (by rw [hred]) (by omega) (by rw [hred]; exact hab) (by rw [hred]; exact hslot)
          (by rw [hred]; exact hrest) (by rw [hred]; exact hlen2)
        rw [hstep]
        refine ⟨hnext.1, hnext.2.1, ?_, ?_, ?_⟩
        · rw [hnext.2.2.1, hred]
        · rw [hnext.2.2.2.1, hred]
          simp only []
          omega
        · intro st hst
          rcases hnext.2.2.2.2 st hst with hmem | hterm
          · rw [hred] at hmem
            simp only [List.mem_append, List.mem_singleton] at hmem
            rcases hmem with hmem2 | rfl
            · exact Or.inl hmem2
            · exact Or.inr rfl
          · exact Or.inr hterm
      | complete summary => simp [nonTerminalResult] at hr
      | text t => simp [nonTerminalResult] at hr
      | failure msg isAbort => simp [nonTerminalResult] at hr

/-! ### Claim theorems -/

/-- C1 counterexample: a sentinel capture that times out with the
non-empty accumulated buffer `hello` resolves with exactly that buffer,
carrying no timeout annotation, and the Agent Loop's substring heuristic
classifies the outcome as `done`, not `timeout`.  This refutes the claim
that for every accumulated buffer the deadline resolution is annotated
as a timeout outcome distinguishable by the Agent Loop. -/
theorem sentinel_timeout_unannotated_cex :
    capStep ⟨some "hello", none⟩ CapEvent.sentTimer
      = (⟨none, none⟩, [(ResKind.sent, "hello")]) ∧
    timedOutHeuristic "hello" = false ∧
    jsTrim (stripAnsi "hello") ≠ "" := by decide

/-- C1 (amended): when no marker match occurred before the deadline, the
timer event resolves the pending sentinel capture exactly once with the
scrubbed trimmed buffer (the fixed timeout message when that is empty)
and clears the pending state; only the empty-buffer case (whose message
contains the probe substrings) is recognized by the Agent Loop's
heuristic as a timeout outcome. -/
theorem sentinel_timeout_resolution (buf : String) :
    capStep ⟨some buf, none⟩ CapEvent.sentTimer
      = (⟨none, none⟩, [(ResKind.sent, timeoutResolve buf)]) ∧
    (jsTrim (stripAnsi buf) = "" → timedOutHeuristic (timeoutResolve buf) = true) := by
  refine ⟨rfl, ?_⟩
  intro h
  simp only [timeoutResolve, h, if_pos]
  decide

/-- Witness for C1 (amended) at the empty buffer. -/
theorem sentinel_timeout_resolution_witness :
    capStep ⟨some "", none⟩ CapEvent.sentTimer
      = (⟨none, none⟩, [(ResKind.sent, timeoutResolve "")]) ∧
    timedOutHeuristic (timeoutResolve "") = true :=
  ⟨(sentinel_timeout_resolution "").1, (sentinel_timeout_resolution "").2 (by decide)⟩

/-- C2: with at most one capture pending and no new capture started while
one is pending, any sequence of output, timer and abort events invokes a
resolver at most once; and a pending capture whose timer event occurs in
the sequence is resolved exactly once (the deadline guarantees exactly
one resolution among timeout, match and abort). -/
theorem capture_single_resolution (s : Caps) (evs : List CapEvent)
    (hpend : pendingCount s ≤ 1) (hstart : ∀ e ∈ evs, isStart e = false) :
    (runCaps s evs).2.length ≤ 1 ∧
    (s.sentCap.isSome = true → CapEvent.sentTimer ∈ evs →
      (runCaps s evs).2.length = 1) ∧
    (s.sampCap.isSome = true → CapEvent.sampTimer ∈ evs →
      (runCaps s evs).2.length = 1) := by
  have hc := runCaps_count evs s hstart
  refine ⟨by omega, ?_, ?_⟩
  · intro h1 h2
    have := runCaps_ge_one_sent evs s h1 h2
    omega
  · intro h1 h2
    have := runCaps_ge_one_samp evs s h1 h2
    omega

/-- Witness for C2: a pending sentinel capture whose timer fires resolves
exactly once. -/
theorem capture_single_resolution_witness :
    (runCaps ⟨some "", none⟩ [CapEvent.sentTimer]).2.length = 1 :=
  (capture_single_resolution ⟨some "", none⟩ [CapEvent.sentTimer]
    (by decide) (by decide)).2.1 (by decide) (by decide)

/-- C3: the sentinel-capture extraction on the accumulated output
`ls`, `file1`, `file2`, marker line (with marker `__DONE__` and command
`ls`) yields `file1` and `file2`: everything before the line-break-preceded
marker, after skipping the first line of the cleaned buffer, trimmed.
The same extraction with the production marker behaves identically. -/
theorem sentinel_extraction_example :
    sentinelExtract "__DONE__" "ls\nfile1\nfile2\n__DONE__\n" = some "file1\nfile2" ∧
    sentinelExtract AGENT_SENTINEL "ls\nfile1\nfile2\n__JUNI_AGENT_DONE__\n"
      = some "file1\nfile2" := by decide

/-- C4 counterexample: aborting a pending sample capture whose buffer
already holds `output!` (non-empty even after scrubbing and trimming)
still resolves with the fixed placeholder, not with the accumulated
content.  This refutes the claim that the placeholder is returned only
when nothing had accumulated. -/
theorem sample_abort_ignores_buffer_cex :
    capStep ⟨none, some "output!"⟩ CapEvent.abort
      = (⟨none, none⟩, [(ResKind.samp, "(aborted by user)")]) ∧
    jsTrim (stripAnsi "output!") = "output!" ∧
    ("output!" : String) ≠ "(aborted by user)" := by decide

/-- C4 (amended): an external abort resolves a pending sentinel capture
immediately with the scrubbed trimmed accumulated buffer, falling back to
the fixed placeholder only when that is empty; a pending sample capture is
always resolved with the fixed placeholder regardless of its buffer.  In
both cases the timer is cancelled, the pending state is cleared, and a
subsequent capture starts cleanly with an empty buffer. -/
theorem abort_resolution (bs bk : String) :
    capStep ⟨some bs, none⟩ CapEvent.abort
      = (⟨none, none⟩, [(ResKind.sent, abortSentinelResolve bs)]) ∧
    abortSentinelResolve bs
      = (if jsTrim (stripAnsi bs) = "" then ABORT_MSG else jsTrim (stripAnsi bs)) ∧
    capStep ⟨none, some bk⟩ CapEvent.abort
      = (⟨none, none⟩, [(ResKind.samp, ABORT_MSG)]) ∧
    capStep (capStep ⟨some bs, some bk⟩ CapEvent.abort).1 CapEvent.startSent
      = (⟨some "", none⟩, []) :=
  ⟨rfl, rfl, rfl, rfl⟩

/-- C5: calling stop on a run blocked in the pause-wait resolves the
pending wait, and the next scheduled continuation terminates the run with
an aborted step: the coroutine reaches the finished state with `running`
false, no further model call is made (the response script is untouched),
and the run does not hang. -/
theorem stop_while_paused_aborts (s : AgentState) (i : Nat)
    (hpc : s.pc = AgentPC.pausedWait i) (hslot : s.pausedSlot = PausedSlot.armed) :
    (agentLoopTick (stopAgent s)).pc = AgentPC.finished ∧
    (agentLoopTick (stopAgent s)).running = false ∧
    (agentLoopTick (stopAgent s)).steps = s.steps ++ [StepType.aborted] ∧
    (agentLoopTick (stopAgent s)).modelCalls = s.modelCalls ∧
    (agentLoopTick (stopAgent s)).script = s.script := by
  simp [stopAgent, resolvePause, hslot, hpc, agentLoopTick, finishRun]

/-- Witness for C5 at a concrete paused run state. -/
theorem stop_while_paused_aborts_witness :
    (agentLoopTick (stopAgent ⟨AgentPC.pausedWait 3, false, PausedSlot.armed,
        true, true, false, [], [], 0, 0, none⟩)).pc = AgentPC.finished ∧
    (agentLoopTick (stopAgent ⟨AgentPC.pausedWait 3, false, PausedSlot.armed,
        true, true, false, [], [], 0, 0, none⟩)).steps = [StepType.aborted] :=
  ⟨(stop_while_paused_aborts _ 3 rfl rfl).1,
   (stop_while_paused_aborts _ 3 rfl rfl).2.2.1⟩

/-- C6: an agent run whose 20 iterations all receive non-terminal
responses (commands not classified as timeouts, or key sends) stops
silently at the iteration cap: `running` becomes false, the coroutine
finishes, exactly 20 model calls were made, no text answer was produced
and no terminal step record (complete, aborted or error) is appended to
the step log. -/
theorem iteration_cap_silent_stop (script : List ModelResult)
    (hscript : ∀ r ∈ script, nonTerminalResult r = true)
    (hlen : 20 ≤ script.length) :
    (runTicks 21 (initAgent script)).running = false ∧
    (runTicks 21 (initAgent script)).pc = AgentPC.finished ∧
    (runTicks 21 (initAgent script)).finalText = none ∧
    (runTicks 21 (initAgent script)).modelCalls = 20 ∧
    (∀ st ∈ (runTicks 21 (initAgent script)).steps, isTerminalStep st = false) := by
  have h := agentLoop_cap_aux 20 (initAgent script) 0 rfl rfl rfl rfl hscript hlen
  refine ⟨h.1, h.2.1, h.2.2.1, by simpa using h.2.2.2.1, ?_⟩
  intro st hst
  rcases h.2.2.2.2 st hst with hmem | hterm
  · exact absurd hmem (List.not_mem_nil st)
  · exact hterm

/-- Witness for C6 on a script of twenty successful commands. -/
theorem iteration_cap_silent_stop_witness :
    (runTicks 21 (initAgent (List.replicate 20
        (ModelResult.command "ls" "check" "ok")))).running = false ∧
    (runTicks 21 (initAgent (List.replicate 20
        (ModelResult.command "ls" "check" "ok")))).modelCalls = 20 :=
  ⟨(iteration_cap_silent_stop (List.replicate 20 (ModelResult.command "ls" "check" "ok"))
      (by decide) (by decide)).1,
   (iteration_cap_silent_stop (List.replicate 20 (ModelResult.command "ls" "check" "ok"))
      (by decide) (by decide)).2.2.2.1⟩

/-- C7: the disconnect teardown is idempotent for every session state:
a second `cleanupBackend` performs no cleanup side effects (no second pty
kill, no second stream or transport end) and leaves the state unchanged,
whether the backend was local, remote, or absent. -/
theorem disconnect_idempotent (s : BackendState) :
    (cleanupBackend (cleanupBackend s).1).2 = [] ∧
    (cleanupBackend (cleanupBackend s).1).1 = (cleanupBackend s).1 :=
  ⟨rfl, rfl⟩

/-- C8 counterexample: the token `toString` is not a symbolic-key name of
the table, yet it is not passed through literally — bracket access on the
object literal finds the inherited prototype method, and the payload
becomes its coerced source string.  This refutes the claim that every
token not recognized by the symbolic-key table is passed through
literally. -/
theorem send_keys_prototype_cex :
    KEY_MAP.find? (fun p => p.1 == "toString") = none ∧
    sendKeysPayload "toString" = "function toString() \x7b [native code] \x7d" ∧
    sendKeysPayload "toString" ≠ "toString" := by decide

/-- C8 (amended): the keys string `y Enter` is translated to the literal
`y` immediately followed by a carriage return with no separator; in
general the payload is each whitespace-separated token translated through
the bracket-access lookup — the symbolic-key table when the token is an
own key, the coerced inherited prototype property when the token names
one, and the token itself literally otherwise — with the translated
tokens concatenated. -/
theorem send_keys_translation :
    sendKeysPayload "y Enter" = "y\r" ∧
    ∀ keys, sendKeysPayload keys = sendKeysSpec keys := by
  refine ⟨by decide, ?_⟩
  intro keys
  simp [sendKeysPayload, sendKeysSpec, List.foldl_map]

/-- C9: resize requests arriving before any backend exists are buffered
in the single `pendingSize` slot with the most recent request winning, no
backend is created by resizing, and a subsequently spawned backend (local
pty or remote shell) starts with the buffered size. -/
theorem pre_spawn_resize_buffered (s : SessionState) (k : BackendKind)
    (rs : List WinSize) (last : WinSize)
    (hb : s.backend = none) (hl : rs.getLast? = some last) :
    (applyResizes s rs).backend = none ∧
    (applyResizes s rs).pendingSize = last ∧
    (spawnBackend (applyResizes s rs) k).backend = some (k, last) := by
  have h1 := applyResizes_backend_none rs s hb
  have h2 := applyResizes_pending rs s last hl
  refine ⟨h1, h2, ?_⟩
  simp [spawnBackend, h2]

/-- Witness for C9: two pre-spawn resizes on a fresh session, then a
local spawn. -/
theorem pre_spawn_resize_buffered_witness :
    (spawnBackend (applyResizes initSession [⟨100, 40⟩, ⟨120, 30⟩])
        BackendKind.localPty).backend
      = some (BackendKind.localPty, ⟨120, 30⟩) :=
  (pre_spawn_resize_buffered initSession BackendKind.localPty
    [⟨100, 40⟩, ⟨120, 30⟩] ⟨120, 30⟩ rfl (by decide)).2.2

/-- C10 counterexample: sending the single token `toString` (which
contains no whitespace and is not the symbolic name `Space`) transmits a
payload containing space characters, because bracket access finds the
inherited prototype method and appends its coerced source string.  This
refutes the claim that a space character can only be sent via the
symbolic key name `Space`. -/
theorem space_without_space_token_cex :
    ' ' ∈ (sendKeysPayload "toString").data ∧
    ("Space" ∈ jsSplitWs "toString") = False := by decide

/-- C10 (amended): whitespace in the keys string acts only as a token
separator and is never itself transmitted — literal text containing a
space is sent with the space removed (`echo hi` becomes `echohi`) — and a
space character occurs in the payload exactly when some token is the
symbolic name `Space` or names an inherited prototype property (whose
coerced value contains spaces). -/
theorem whitespace_never_transmitted :
    sendKeysPayload "echo hi" = "echohi" ∧
    ∀ keys, (' ' ∈ (sendKeysPayload keys).data ↔
      ∃ t ∈ jsSplitWs keys, spaceToken t = true) := by
  refine ⟨by decide, ?_⟩
  intro keys
  rw [show sendKeysPayload keys
      = (jsSplitWs keys).foldl
          (fun payload token => payload ++ (keyLookup token).getD token) "" from rfl]
  rw [foldl_payload_mem]
  constructor
  · rintro (h | ⟨t, ht, hmem⟩)
    · exact absurd h (by decide)
    · exact ⟨t, ht, (contrib_space t (tokens_no_ws keys t ht)).mp hmem⟩
  · rintro ⟨t, ht, hsp⟩
    right
    exact ⟨t, ht, (contrib_space t (tokens_no_ws keys t ht)).mpr hsp⟩

end Juni
